import Mathlib

/-!
Verification of the fuzzy HVAC control repository (`fuzzy-hvac-control`).

The Python source works on IEEE floats and numpy arrays; the shallow
embedding below uses exact rationals (`ℚ`) and `List ℚ` as the idealisation
of that arithmetic, and `Option` for code paths that raise exceptions.
Each definition is translated from the corresponding Python function;
diagnostic-only state (the `history` dictionaries, printing, plotting) is
omitted because no computation in the core ever reads it back.
-/

/-! ## Defuzzification (`src/fuzzy_controller/defuzzification.py`) -/

/-- The value of `np.max` on a 1-d array.  numpy raises on an empty array; all uses in
the claims are on non-empty arrays, where the `[]` case is unreachable. -/
def npMax : List ℚ → ℚ
  | [] => 0
  | a :: l => l.foldl max a

/-- The clamp `np.clip(x, lo, hi)`, which computes `min (max x lo) hi`. -/
def np_clip (x lo hi : ℚ) : ℚ := min (max x lo) hi

/-- Embedding of `Defuzzifier.centroid`: `Σ(x·μ(x))/Σ(μ(x))`, with the universe
midpoint as fallback when the total membership is zero. -/
def Defuzzifier.centroid (univ membership : List ℚ) : ℚ :=
  let numerator := (List.zipWith (· * ·) univ membership).sum
  let denominator := membership.sum
  if denominator = 0 then (univ.headD 0 + univ.getLastD 0) / 2
  else numerator / denominator

/-- The scanning loop of `Defuzzifier.bisector`: walk the two arrays in
step, accumulate membership, and return the first universe point at which
the accumulated membership reaches `half`; past the end, the Python code
returns `universe[-1]`, passed in here as `fallb`. -/
def Defuzzifier.bisectorGo (half fallb : ℚ) : List ℚ → List ℚ → ℚ → ℚ
  | ui :: us, mi :: ms, cum =>
    if cum + mi ≥ half then ui else Defuzzifier.bisectorGo half fallb us ms (cum + mi)
  | _, _, _ => fallb

/-- Embedding of `Defuzzifier.bisector`: smallest universe point where the cumulative
membership sum reaches half the total, with the midpoint fallback on a
zero-area curve. -/
def Defuzzifier.bisector (univ membership : List ℚ) : ℚ :=
  let total_area := membership.sum
  if total_area = 0 then (univ.headD 0 + univ.getLastD 0) / 2
  else Defuzzifier.bisectorGo (total_area / 2) (univ.getLastD 0) univ membership 0

/-- The selection `universe[np.where(membership == mx)[0]]`: the universe points (in
order) whose membership value equals `mx`. -/
def Defuzzifier.maxPoints (univ membership : List ℚ) (mx : ℚ) : List ℚ :=
  (univ.zip membership).filterMap (fun p => if p.2 = mx then some p.1 else none)

/-- Embedding of `Defuzzifier.mean_of_maximum`: average of the universe points attaining
the maximum membership; midpoint fallback when the maximum is zero. -/
def Defuzzifier.mean_of_maximum (univ membership : List ℚ) : ℚ :=
  let mx := npMax membership
  if mx = 0 then (univ.headD 0 + univ.getLastD 0) / 2
  else
    let pts := Defuzzifier.maxPoints univ membership mx
    pts.sum / (pts.length : ℚ)

/-- Embedding of `Defuzzifier.smallest_of_maximum`: first universe point attaining the
maximum membership; `universe[0]` fallback when the maximum is zero. -/
def Defuzzifier.smallest_of_maximum (univ membership : List ℚ) : ℚ :=
  let mx := npMax membership
  if mx = 0 then univ.headD 0
  else (Defuzzifier.maxPoints univ membership mx).headD 0

/-- Embedding of `Defuzzifier.largest_of_maximum`: last universe point attaining the
maximum membership; `universe[-1]` fallback when the maximum is zero. -/
def Defuzzifier.largest_of_maximum (univ membership : List ℚ) : ℚ :=
  let mx := npMax membership
  if mx = 0 then univ.getLastD 0
  else (Defuzzifier.maxPoints univ membership mx).getLastD 0

/-! ## Membership functions (`src/fuzzy_controller/membership_functions.py`)

`GaussianMF` needs the real exponential and is used only on the *input*
variables, whose fuzzified degrees enter the claims as abstract
`input_memberships` mappings; it is therefore not part of the embedding. -/

/-- The shape data of `TriangularMF` / `TrapezoidalMF` (the `name` field
lives in the term maps of `FuzzyVariable`). -/
inductive MF
  | triangular (a b c : ℚ)
  | trapezoidal (a b c d : ℚ)
  deriving DecidableEq

/-- Embedding of `TriangularMF.evaluate` / `TrapezoidalMF.evaluate`, with the exact
branch structure of the Python conditionals. -/
def MF.evaluate : MF → ℚ → ℚ
  | .triangular a b c, x =>
    if x ≤ a ∨ x ≥ c then 0
    else if a < x ∧ x ≤ b then (x - a) / (b - a)
    else (c - x) / (c - b)
  | .trapezoidal a b c d, x =>
    if x ≤ a ∨ x ≥ d then 0
    else if a < x ∧ x ≤ b then (x - a) / (b - a)
    else if b < x ∧ x ≤ c then 1
    else (d - x) / (d - c)

/-- Embedding of `np.linspace(lo, hi, n)`: `n` evenly spaced points from `lo` to `hi`
inclusive. -/
def linspace (lo hi : ℚ) (n : ℕ) : List ℚ :=
  (List.range n).map (fun i : ℕ => lo + (i : ℚ) * ((hi - lo) / ((n : ℚ) - 1)))

/-- Embedding of `FuzzyVariable`: a named universe range with a term-name → membership
function map (an ordered association list, mirroring the Python dict). -/
structure FuzzyVariable where
  name : String
  lo : ℚ
  hi : ℚ
  terms : List (String × MF)
  deriving DecidableEq

/-- Association-list lookup, the embedding of Python `dict[key]` /
`key in dict` on the dictionaries built by this code base. -/
def alookup {κ α : Type} [DecidableEq κ] : List (κ × α) → κ → Option α
  | [], _ => none
  | (k', v) :: rest, k => if k' = k then some v else alookup rest k

/-- Embedding of `FuzzyVariable.get_universe`: the discretized universe (default 1000
points). -/
def FuzzyVariable.get_universe (v : FuzzyVariable) (num_points : ℕ := 1000) : List ℚ :=
  linspace v.lo v.hi num_points

/-- Embedding of `FuzzyVariable.fuzzify`: one membership degree per registered term. -/
def FuzzyVariable.fuzzify (v : FuzzyVariable) (crisp_value : ℚ) : List (String × ℚ) :=
  v.terms.map (fun p => (p.1, p.2.evaluate crisp_value))

/-- Embedding of `create_power_variable`: Potencia over [0,100] with its five terms. -/
def create_power_variable : FuzzyVariable :=
  { name := "Potencia", lo := 0, hi := 100,
    terms := [("Muy Baja", .trapezoidal 0 0 10 20),
              ("Baja", .triangular 15 30 45),
              ("Media", .triangular 35 50 65),
              ("Alta", .triangular 55 70 85),
              ("Muy Alta", .trapezoidal 80 90 100 100)] }

/-! ## Rules and inference engine (`src/fuzzy_controller/fuzzy_rules.py`) -/

/-- The `{variable_name: {term_name: membership}}` mapping handed to the
inference engine. -/
abbrev Memberships := List (String × List (String × ℚ))

/-- Embedding of `FuzzyRule`: conjunctive antecedents, one consequent, a weight. -/
structure FuzzyRule where
  antecedents : List (String × String)
  consequent : String × String
  weight : ℚ := 1
  deriving DecidableEq

/-- Embedding of `FuzzyInferenceEngine`: rule base plus implication method selector. -/
structure FuzzyInferenceEngine where
  rules : List FuzzyRule
  implication_method : String := "minimum"
  deriving DecidableEq

/-- The antecedent loop of `evaluate_rule`: one degree per antecedent.
A variable absent from `input_memberships` raises `ValueError` (`none`);
a term name absent from the supplied variable's mapping is looked up with
`dict.get(term_name, 0.0)` and silently contributes degree `0`. -/
def collectActivations (input_memberships : Memberships) :
    List (String × String) → Option (List ℚ)
  | [] => some []
  | (var_name, term_name) :: rest =>
    match alookup input_memberships var_name with
    | none => none
    | some terms =>
      (collectActivations input_memberships rest).map
        (fun l => (alookup terms term_name).getD 0 :: l)

/-- The firing strength `min(activations) if activations else 0.0`. -/
def listMin : List ℚ → ℚ
  | [] => 0
  | a :: l => l.foldl min a

/-- Embedding of `FuzzyInferenceEngine.evaluate_rule`: minimum T-norm over the
antecedent degrees, scaled by the rule weight; `none` models the
`ValueError` raised on an unknown variable. -/
def evaluate_rule (rule : FuzzyRule) (input_memberships : Memberships) : Option ℚ :=
  (collectActivations input_memberships rule.antecedents).map
    (fun activations => listMin activations * rule.weight)

/-- The implication step: clip (`"minimum"`) or scale (`"product"`) the
consequent curve by the firing strength; any other selector falls back to
clipping, exactly as the Python `if/elif/else`. -/
def implicationCurve (implication_method : String) (consequent_values : List ℚ)
    (activation : ℚ) : List ℚ :=
  if implication_method = "minimum" then consequent_values.map (fun y => min y activation)
  else if implication_method = "product" then consequent_values.map (fun y => y * activation)
  else consequent_values.map (fun y => min y activation)

/-- The loop body of `aggregate_outputs`: fold the activated rules into the
running pointwise-maximum curve.  An activated rule whose consequent term
is not in the output variable's term map raises `KeyError` (`none`). -/
def aggregateFrom (implication_method : String) (output_variable : FuzzyVariable)
    (univ agg : List ℚ) : List (FuzzyRule × ℚ) → Option (List ℚ)
  | [] => some agg
  | (rule, activation) :: rest =>
    if activation > 0 then
      match alookup output_variable.terms rule.consequent.2 with
      | none => none
      | some consequent_mf =>
        aggregateFrom implication_method output_variable univ
          (List.zipWith max agg
            (implicationCurve implication_method (univ.map consequent_mf.evaluate) activation))
          rest
    else aggregateFrom implication_method output_variable univ agg rest

/-- Embedding of `FuzzyInferenceEngine.aggregate_outputs`: start from `np.zeros_like`
of the discretized output universe and fold in each activated rule. -/
def aggregate_outputs (implication_method : String)
    (rule_activations : List (FuzzyRule × ℚ)) (output_variable : FuzzyVariable) :
    Option (List ℚ) :=
  let univ := output_variable.get_universe
  aggregateFrom implication_method output_variable univ (univ.map (fun _ => 0))
    rule_activations

/-- The rule-evaluation loop of `inference`: evaluate every rule in order,
keeping `(rule, activation)` for the rules with positive activation; the
first rule referencing an unknown variable aborts with `ValueError`. -/
def collectRuleActivations (input_memberships : Memberships) :
    List FuzzyRule → Option (List (FuzzyRule × ℚ))
  | [] => some []
  | rule :: rest =>
    match evaluate_rule rule input_memberships with
    | none => none
    | some activation =>
      if activation > 0 then
        (collectRuleActivations input_memberships rest).map
          (fun l => (rule, activation) :: l)
      else collectRuleActivations input_memberships rest

/-- Embedding of `FuzzyInferenceEngine.inference`: evaluate all rules, then aggregate
the activated ones over the output universe. -/
def FuzzyInferenceEngine.inference (e : FuzzyInferenceEngine)
    (input_memberships : Memberships) (output_variable : FuzzyVariable) :
    Option (List ℚ) :=
  (collectRuleActivations input_memberships e.rules).bind
    (fun rule_activations =>
      aggregate_outputs e.implication_method rule_activations output_variable)

/-! ## Fuzzy controller (`src/fuzzy_controller/fuzzy_system.py`) -/

/-- Embedding of `FuzzyController` configuration (history omitted: diagnostic only). -/
structure FuzzyController where
  input_variables : List (String × FuzzyVariable)
  output_variable : FuzzyVariable
  inference_engine : FuzzyInferenceEngine
  defuzzification_method : String := "centroid"

/-- The fuzzification loop of `FuzzyController.compute`: each supplied
crisp input must match a registered variable, else `ValueError`. -/
def fuzzifyAll (input_variables : List (String × FuzzyVariable)) :
    List (String × ℚ) → Option Memberships
  | [] => some []
  | (var_name, crisp_value) :: rest =>
    match alookup input_variables var_name with
    | none => none
    | some fuzzy_var =>
      (fuzzifyAll input_variables rest).map
        (fun l => (var_name, fuzzy_var.fuzzify crisp_value) :: l)

/-- Embedding of `FuzzyController.compute`: fuzzify → inference → defuzzify, with the
method dispatch of the Python `if/elif/else` chain. -/
def FuzzyController.compute (fc : FuzzyController) (crisp_inputs : List (String × ℚ)) :
    Option ℚ :=
  (fuzzifyAll fc.input_variables crisp_inputs).bind (fun input_memberships =>
    (fc.inference_engine.inference input_memberships fc.output_variable).map
      (fun aggregated_output =>
        let univ := fc.output_variable.get_universe
        if fc.defuzzification_method = "centroid" then
          Defuzzifier.centroid univ aggregated_output
        else if fc.defuzzification_method = "bisector" then
          Defuzzifier.bisector univ aggregated_output
        else if fc.defuzzification_method = "mean_of_maximum" then
          Defuzzifier.mean_of_maximum univ aggregated_output
        else Defuzzifier.centroid univ aggregated_output))

/-! ## PID controller (`src/pid_controller/pid_controller.py`) -/

/-- Embedding of `PIDController`: gains, output limits (`output_limits[0]/[1]`), and the
mutable state (`integral`, `previous_error`); history omitted. -/
structure PIDController where
  Kp : ℚ
  Ki : ℚ
  Kd : ℚ
  output_min : ℚ := 0
  output_max : ℚ := 100
  integral : ℚ := 0
  previous_error : ℚ := 0
  deriving DecidableEq

/-- Embedding of `PIDController.compute`: returns the control output and the updated
controller state.  `previous_error` is initialised to `0.0` and is never
`None`, so the derivative branch always runs. -/
def PIDController.compute (c : PIDController) (error : ℚ) (dt : ℚ := 1) :
    ℚ × PIDController :=
  let P := c.Kp * error
  let integral0 := c.integral + error * dt
  let max_integral := if c.Ki ≠ 0 then c.output_max / c.Ki else 1000000
  let integral := np_clip integral0 (-max_integral) max_integral
  let I := c.Ki * integral
  let derivative := (error - c.previous_error) / dt
  let D := c.Kd * derivative
  let output := np_clip (P + I + D) c.output_min c.output_max
  (output, { c with integral := integral, previous_error := error })

/-- Repeatedly feed the same `(error, dt)` to `compute`, as in the
anti-windup scenario of driving a constant error for `n` steps. -/
def PIDController.driveConst (c : PIDController) (error dt : ℚ) : ℕ → PIDController
  | 0 => c
  | n + 1 => ((c.driveConst error dt n).compute error dt).2

/-! ## Plant model and simulation driver (`src/simulation/simulation.py`,
duplicated in `src/fuzzy_controller/fuzzy_system.py`) -/

/-- Embedding of `HVACSystem`: first-order thermal plant state (history omitted). -/
structure HVACSystem where
  temperature : ℚ
  ambient_temp : ℚ := 30
  time_constant : ℚ := 5
  gain : ℚ := 1/100
  deriving DecidableEq

/-- Embedding of `HVACSystem.update`: one explicit forward-Euler step of
`dT/dt = -(T - T_ambient)/τ + gain·power`. -/
def HVACSystem.update (s : HVACSystem) (power : ℚ) (dt : ℚ := 1) : HVACSystem :=
  let dT_dt := -(s.temperature - s.ambient_temp) / s.time_constant + s.gain * power
  { s with temperature := s.temperature + dT_dt * dt }

/-- Embedding of `HVACSystem.add_disturbance`: instantaneous temperature step. -/
def HVACSystem.add_disturbance (s : HVACSystem) (delta_temp : ℚ) : HVACSystem :=
  { s with temperature := s.temperature + delta_temp }

/-- Embedding of `HVACSystem.reset`: restore a given initial temperature. -/
def HVACSystem.reset (s : HVACSystem) (initial_temp : ℚ := 20) : HVACSystem :=
  { s with temperature := initial_temp }

/-- The controller argument of `simulate_control`: a PID instance, a fuzzy
instance, or any other object exposing a `compute` method over the
`{Temperatura, Error}` input dict (Python duck typing). -/
inductive SimController
  | pid (c : PIDController)
  | fuzzy (fc : FuzzyController)
  | other (compute : ℚ → ℚ → ℚ)

/-- Controller dispatch of `fuzzy_system.simulate_control`:
`isinstance FuzzyController` first, `isinstance PIDController` second,
anything else raises `ValueError("Tipo de controlador no reconocido")`. -/
def dispatchFS : SimController → ℚ → ℚ → ℚ → Option (ℚ × SimController)
  | .fuzzy fc, current_temp, error, _ =>
    (fc.compute [("Temperatura", current_temp), ("Error", error)]).map
      (fun power => (power, .fuzzy fc))
  | .pid c, _, error, dt =>
    let r := c.compute error dt
    some (r.1, .pid r.2)
  | .other _, _, _, _ => none

/-- Controller dispatch of `simulation.simulate_control`:
`isinstance PIDController` first, every other controller is assumed to be
a fuzzy controller and fed the `{Temperatura, Error}` dict. -/
def dispatchSim : SimController → ℚ → ℚ → ℚ → Option (ℚ × SimController)
  | .pid c, _, error, dt =>
    let r := c.compute error dt
    some (r.1, .pid r.2)
  | .fuzzy fc, current_temp, error, _ =>
    (fc.compute [("Temperatura", current_temp), ("Error", error)]).map
      (fun power => (power, .fuzzy fc))
  | .other f, current_temp, error, _ => some (f current_temp error, .other f)

/-- One row of the returned time series. -/
structure SimRec where
  t : ℚ
  temperature : ℚ
  power : ℚ
  error : ℚ
  deriving DecidableEq

/-- One iteration of the `while time <= duration` loop, shared verbatim by
both `simulate_control` implementations: apply an exactly-matching
scheduled disturbance, read the (post-disturbance) temperature, compute
the error, dispatch to the controller, advance the plant, and record the
sample. -/
def simStep (dispatch : SimController → ℚ → ℚ → ℚ → Option (ℚ × SimController))
    (ctrl : SimController) (sys : HVACSystem) (setpoint dt : ℚ)
    (disturbances : List (ℚ × ℚ)) (time : ℚ) :
    Option (SimRec × SimController × HVACSystem) :=
  let sys1 := match alookup disturbances time with
    | some delta => sys.add_disturbance delta
    | none => sys
  let current_temp := sys1.temperature
  let error := setpoint - current_temp
  match dispatch ctrl current_temp error dt with
  | none => none
  | some (power, ctrl') => some (⟨time, current_temp, power, error⟩, ctrl', sys1.update power dt)

/-- The simulation loop, fuelled: `fuel` bounds the number of iterations
and is chosen below so that the `time ≤ duration` test fails first
whenever `dt > 0`; exhausted fuel (`none`) models non-termination. -/
def simLoop (dispatch : SimController → ℚ → ℚ → ℚ → Option (ℚ × SimController))
    (setpoint duration dt : ℚ) (disturbances : List (ℚ × ℚ)) :
    ℕ → SimController → HVACSystem → ℚ → List SimRec → Option (List SimRec)
  | 0, _, _, time, acc => if time ≤ duration then none else some acc
  | fuel + 1, ctrl, sys, time, acc =>
    if time ≤ duration then
      match simStep dispatch ctrl sys setpoint dt disturbances time with
      | none => none
      | some (r, ctrl', sys') =>
        simLoop dispatch setpoint duration dt disturbances fuel ctrl' sys' (time + dt)
          (acc ++ [r])
    else some acc

/-- The driver `simulate_control`, parametrised by the dispatch function that
distinguishes the `fuzzy_system.py` and `simulation.py` variants. -/
def simulate_control (dispatch : SimController → ℚ → ℚ → ℚ → Option (ℚ × SimController))
    (ctrl : SimController) (sys : HVACSystem) (setpoint : ℚ)
    (duration : ℚ := 100) (dt : ℚ := 1) (disturbances : List (ℚ × ℚ) := []) :
    Option (List SimRec) :=
  simLoop dispatch setpoint duration dt disturbances
    ((Int.floor (duration / dt)).toNat + 1) ctrl sys 0 []

/-! ## Helper lemmas -/

/-- A list of non-negatives with zero sum is all zeros. -/
theorem sum_zero_all_zero (l : List ℚ) (hnn : ∀ x ∈ l, 0 ≤ x) (hsum : l.sum = 0) :
    ∀ x ∈ l, x = 0 := by
  induction l with
  | nil => simp
  | cons a t ih =>
    have hta : 0 ≤ t.sum := List.sum_nonneg (fun x hx => hnn x (List.mem_cons_of_mem a hx))
    have ha : 0 ≤ a := hnn a (List.mem_cons_self a t)
    have hsum' : a + t.sum = 0 := by simpa using hsum
    intro x hx
    rcases List.mem_cons.mp hx with h | h
    · have : a = 0 := by linarith
      exact h ▸ this
    · exact ih (fun y hy => hnn y (List.mem_cons_of_mem a hy)) (by linarith) x h

/-- Folding `max` over zeros from a zero seed stays zero. -/
theorem foldl_max_zero (a : ℚ) (l : List ℚ) (ha : a = 0) (hl : ∀ x ∈ l, x = 0) :
    l.foldl max a = 0 := by
  induction l generalizing a with
  | nil => simpa using ha
  | cons b t ih =>
    have hb : b = 0 := hl b (by simp)
    simp only [List.foldl_cons]
    exact ih (max a b) (by simp [ha, hb]) (fun x hx => hl x (by simp [hx]))

/-- The value of `np.max` on an all-zero array is zero. -/
theorem npMax_all_zero (l : List ℚ) (hl : ∀ x ∈ l, x = 0) : npMax l = 0 := by
  cases l with
  | nil => rfl
  | cons a t => exact foldl_max_zero a t (hl a (by simp)) (fun x hx => hl x (by simp [hx]))

/-! ## C1: degenerate-curve fallbacks of the defuzzifiers -/

/-- C1: for every non-empty universe and same-length non-negative
membership array summing to zero, centroid, bisector and mean-of-maximum
return the universe midpoint, smallest-of-maximum returns `universe[0]`,
and largest-of-maximum returns `universe[-1]` — no exception path is
taken. -/
theorem C1_zero_sum_fallbacks (u m : List ℚ) (hne : u ≠ []) (hlen : m.length = u.length)
    (hnn : ∀ x ∈ m, 0 ≤ x) (hsum : m.sum = 0) :
    Defuzzifier.centroid u m = (u.headD 0 + u.getLastD 0) / 2
    ∧ Defuzzifier.bisector u m = (u.headD 0 + u.getLastD 0) / 2
    ∧ Defuzzifier.mean_of_maximum u m = (u.headD 0 + u.getLastD 0) / 2
    ∧ Defuzzifier.smallest_of_maximum u m = u.headD 0
    ∧ Defuzzifier.largest_of_maximum u m = u.getLastD 0 := by
  have hz : npMax m = 0 := npMax_all_zero m (sum_zero_all_zero m hnn hsum)
  refine ⟨?_, ?_, ?_, ?_, ?_⟩ <;>
    simp [Defuzzifier.centroid, Defuzzifier.bisector, Defuzzifier.mean_of_maximum,
      Defuzzifier.smallest_of_maximum, Defuzzifier.largest_of_maximum, hsum, hz]

/-- Witness for C1 at `u = [1,2,3]`, `m = [0,0,0]`. -/
theorem C1_witness :
    Defuzzifier.centroid [1, 2, 3] [0, 0, 0] = 2
    ∧ Defuzzifier.bisector [1, 2, 3] [0, 0, 0] = 2
    ∧ Defuzzifier.mean_of_maximum [1, 2, 3] [0, 0, 0] = 2
    ∧ Defuzzifier.smallest_of_maximum [1, 2, 3] [0, 0, 0] = 1
    ∧ Defuzzifier.largest_of_maximum [1, 2, 3] [0, 0, 0] = 3 := by
  have h := C1_zero_sum_fallbacks [1, 2, 3] [0, 0, 0] (by decide) (by decide)
    (by decide) (by norm_num)
  norm_num at h
  exact h

/-! ## C5: triangular membership function shape -/

/-- C5 fails as stated: the repository's own degenerate triangle
`TriangularMF("Muy Frío", 10, 10, 15)` has breakpoints `10 ≤ 10 ≤ 15`, yet
`evaluate(b) = evaluate(10) = 0`, not `1`, because `x <= a` wins. -/
theorem C5_counterexample :
    (10 : ℚ) ≤ 10 ∧ (10 : ℚ) ≤ 15
    ∧ MF.evaluate (.triangular 10 10 15) 10 = 0
    ∧ MF.evaluate (.triangular 10 10 15) 10 ≠ 1 := by decide

/-- C5 amended: zero outside `(a,c)` (endpoints included) for every
`a ≤ b ≤ c`; the peak value `1` at `b` and the linear rise/fall formulas
additionally require the triangle to be non-degenerate (`a < b < c`); the
concrete Scenario-A facts for `Triangular(10,20,30)` hold. -/
theorem C5_amended (a b c x : ℚ) (hab : a ≤ b) (hbc : b ≤ c) :
    ((x ≤ a ∨ c ≤ x) → MF.evaluate (.triangular a b c) x = 0)
    ∧ (a < b → b < c →
        MF.evaluate (.triangular a b c) b = 1
        ∧ (a < x → x ≤ b → MF.evaluate (.triangular a b c) x = (x - a) / (b - a))
        ∧ (b < x → x < c → MF.evaluate (.triangular a b c) x = (c - x) / (c - b)))
    ∧ MF.evaluate (.triangular 10 20 30) 20 = 1
    ∧ MF.evaluate (.triangular 10 20 30) 10 = 0
    ∧ MF.evaluate (.triangular 10 20 30) 15 = 1 / 2 := by
  refine ⟨?_, ?_, by norm_num [MF.evaluate], by norm_num [MF.evaluate],
    by norm_num [MF.evaluate]⟩
  · intro h
    have h' : x ≤ a ∨ x ≥ c := h
    simp only [MF.evaluate]
    rw [if_pos h']
  · intro hab' hbc'
    refine ⟨?_, ?_, ?_⟩
    · simp only [MF.evaluate]
      rw [if_neg (by push_neg; exact ⟨by linarith, by linarith⟩),
        if_pos ⟨hab', le_refl b⟩]
      exact div_self (by linarith)
    · intro h1 h2
      simp only [MF.evaluate]
      rw [if_neg (by push_neg; exact ⟨by linarith, by linarith⟩), if_pos ⟨h1, h2⟩]
    · intro h1 h2
      simp only [MF.evaluate]
      rw [if_neg (by push_neg; exact ⟨by linarith, by linarith⟩),
        if_neg (by push_neg; intro _; linarith)]

/-- Witness for the amended C5 at the non-degenerate `Triangular(10,20,30)`. -/
theorem C5_witness :
    MF.evaluate (.triangular 10 20 30) 20 = 1
    ∧ MF.evaluate (.triangular 10 20 30) 15 = (15 - 10) / (20 - 10) := by
  have h := C5_amended 10 20 30 15 (by norm_num) (by norm_num)
  exact ⟨h.2.2.1, (h.2.1 (by norm_num) (by norm_num)).2.1 (by norm_num) (by norm_num)⟩

/-! ## C8: forward-Euler plant step -/

/-- C8: `HVACSystem.update` performs exactly one forward-Euler step of
`dT/dt = -(T - T_ambient)/τ + gain·power`, and `reset(T0)` followed by a
zero-power update gives `T0 + (-(T0 - T_ambient)/τ)·dt`. -/
theorem C8_euler_step (sys : HVACSystem) (power dt T0 : ℚ) :
    (sys.update power dt).temperature
      = sys.temperature
        + (-(sys.temperature - sys.ambient_temp) / sys.time_constant + sys.gain * power) * dt
    ∧ ((sys.reset T0).update 0 dt).temperature
      = T0 + (-(T0 - sys.ambient_temp) / sys.time_constant) * dt := by
  constructor
  · rfl
  · show T0 + (-(T0 - sys.ambient_temp) / sys.time_constant + sys.gain * 0) * dt = _
    ring

/-! ## C3: PID anti-windup invariant -/

/-- After one `compute` call, the integral accumulator is the clip of its
update to `±(output_max/Ki)`; the clip lands inside that interval whenever
the interval is non-empty, i.e. whenever `0 ≤ output_max/Ki`. -/
theorem pid_integral_bounds (c : PIDController) (error dt : ℚ) (hKi : c.Ki ≠ 0)
    (hM : 0 ≤ c.output_max / c.Ki) :
    -(c.output_max / c.Ki) ≤ ((c.compute error dt).2).integral
    ∧ ((c.compute error dt).2).integral ≤ c.output_max / c.Ki := by
  have hc : ((c.compute error dt).2).integral
      = np_clip (c.integral + error * dt) (-(c.output_max / c.Ki)) (c.output_max / c.Ki) := by
    simp [PIDController.compute, hKi]
  rw [hc]
  unfold np_clip
  constructor
  · exact le_min (le_max_right _ _) (by linarith)
  · exact min_le_right _ _

/-- The iteration `driveConst` never changes the gains or output limits. -/
theorem driveConst_params (c : PIDController) (e dt : ℚ) (k : ℕ) :
    (c.driveConst e dt k).Ki = c.Ki ∧ (c.driveConst e dt k).output_max = c.output_max := by
  induction k with
  | zero => exact ⟨rfl, rfl⟩
  | succ k ih => simpa [PIDController.driveConst, PIDController.compute] using ih

/-- C3 fails as stated for `Ki < 0`: with `Ki = -1` and output limits
`(0, 100)`, one `compute(1, 1)` call leaves `integral = -100`, which is
not inside the stated interval `[-output_max/Ki, +output_max/Ki] = [100, -100]`
(that interval is empty). -/
theorem C3_counterexample :
    ({ Kp := 0, Ki := -1, Kd := 0 } : PIDController).Ki ≠ 0
    ∧ ((({ Kp := 0, Ki := -1, Kd := 0 } : PIDController).compute 1 1).2).integral = -100
    ∧ ¬(-(({ Kp := 0, Ki := -1, Kd := 0 } : PIDController).output_max
            / ({ Kp := 0, Ki := -1, Kd := 0 } : PIDController).Ki)
          ≤ ((({ Kp := 0, Ki := -1, Kd := 0 } : PIDController).compute 1 1).2).integral) := by
  refine ⟨by norm_num, ?_, ?_⟩ <;> norm_num [PIDController.compute, np_clip]

/-- C3 amended: the invariant holds whenever the clamp bound
`output_max/Ki` is non-negative (in particular for the intended
configurations with `Ki > 0` and `output_max ≥ 0`): after every `compute`
call, and after any `n ≥ 1` steps of a constant error, the integral stays
in `[-output_max/Ki, +output_max/Ki]`. -/
theorem C3_amended (c : PIDController) (error dt : ℚ) (n : ℕ) (hKi : c.Ki ≠ 0)
    (hM : 0 ≤ c.output_max / c.Ki) (hn : 1 ≤ n) :
    (-(c.output_max / c.Ki) ≤ ((c.compute error dt).2).integral
      ∧ ((c.compute error dt).2).integral ≤ c.output_max / c.Ki)
    ∧ (-(c.output_max / c.Ki) ≤ (c.driveConst error dt n).integral
      ∧ (c.driveConst error dt n).integral ≤ c.output_max / c.Ki) := by
  refine ⟨pid_integral_bounds c error dt hKi hM, ?_⟩
  obtain ⟨k, rfl⟩ : ∃ k, n = k + 1 := ⟨n - 1, by omega⟩
  obtain ⟨hKi', hMax'⟩ := driveConst_params c error dt k
  have h := pid_integral_bounds (c.driveConst error dt k) error dt
    (by rw [hKi']; exact hKi) (by rw [hKi', hMax']; exact hM)
  rw [hKi', hMax'] at h
  exact h

/-- Witness for the amended C3 with the repo's Scenario-C gains
`Kp=8, Ki=0.3, Kd=2`, limits `(0,100)`. -/
theorem C3_witness :
    (-((100 : ℚ) / (3 / 10))
        ≤ ((({ Kp := 8, Ki := 3 / 10, Kd := 2 } : PIDController).compute 5 (1 / 2)).2).integral
      ∧ ((({ Kp := 8, Ki := 3 / 10, Kd := 2 } : PIDController).compute 5 (1 / 2)).2).integral
        ≤ (100 : ℚ) / (3 / 10))
    ∧ (-((100 : ℚ) / (3 / 10))
        ≤ (({ Kp := 8, Ki := 3 / 10, Kd := 2 } : PIDController).driveConst 5 (1 / 2) 3).integral
      ∧ (({ Kp := 8, Ki := 3 / 10, Kd := 2 } : PIDController).driveConst 5 (1 / 2) 3).integral
        ≤ (100 : ℚ) / (3 / 10)) := by
  have h := C3_amended { Kp := 8, Ki := 3 / 10, Kd := 2 } 5 (1 / 2) 3
    (by norm_num) (by norm_num) (by norm_num)
  exact h

/-! ## C4: unknown variable vs unknown term during rule evaluation -/

/-- An antecedent whose variable is absent from the inputs makes the whole
antecedent collection raise. -/
theorem collect_missing_var (inp : Memberships) (ants : List (String × String))
    (v t : String) (hmem : (v, t) ∈ ants) (hmiss : alookup inp v = none) :
    collectActivations inp ants = none := by
  induction ants with
  | nil => cases hmem
  | cons p rest ih =>
    rcases List.mem_cons.mp hmem with h | h
    · rw [← h]
      simp [collectActivations, hmiss]
    · cases halo : alookup inp p.1 with
      | none => simp [collectActivations, halo]
      | some tm => simp [collectActivations, halo, ih h]

/-- C4 fails as stated: a rule referencing an unknown *term* of a supplied
variable does not raise; `dict.get(term_name, 0.0)` silently yields degree
`0`, so `evaluate_rule` returns `0.0` instead of an error. -/
theorem C4_counterexample :
    evaluate_rule ⟨[("Error", "Tibio")], ("Potencia", "Media"), 1⟩
        [("Error", [("Cero", 1)])] = some 0
    ∧ evaluate_rule ⟨[("Error", "Tibio")], ("Potencia", "Media"), 1⟩
        [("Error", [("Cero", 1)])] ≠ none := by
  constructor <;>
    simp [evaluate_rule, collectActivations, alookup, listMin]

/-- C4 amended: referencing a linguistic variable not supplied as input
raises eagerly (`ValueError`, modelled as `none`); but a term name missing
from the supplied variable's membership map is *silently defaulted to
degree 0*, so a single-antecedent rule with an unknown term evaluates to
firing strength `0` rather than raising. -/
theorem C4_amended (r : FuzzyRule) (inp : Memberships) (v t cv ct : String) (w : ℚ)
    (tm : List (String × ℚ)) :
    ((v, t) ∈ r.antecedents → alookup inp v = none → evaluate_rule r inp = none)
    ∧ (alookup inp v = some tm → alookup tm t = none →
        evaluate_rule ⟨[(v, t)], (cv, ct), w⟩ inp = some 0) := by
  constructor
  · intro hmem hmiss
    simp [evaluate_rule, collect_missing_var inp r.antecedents v t hmem hmiss]
  · intro hv ht
    simp [evaluate_rule, collectActivations, hv, ht, listMin]

/-- Witness for the amended C4: an unknown variable raises, an unknown
term silently gives strength 0. -/
theorem C4_witness :
    evaluate_rule ⟨[("Temperatura", "Templado")], ("Potencia", "Media"), 1⟩
        [("Error", [("Cero", 1)])] = none
    ∧ evaluate_rule ⟨[("Error", "Tibio2")], ("Potencia", "Alta"), 1⟩
        [("Error", [("Cero", 1)])] = some 0 := by
  constructor
  · exact (C4_amended ⟨[("Temperatura", "Templado")], ("Potencia", "Media"), 1⟩
      [("Error", [("Cero", 1)])] "Temperatura" "Templado" "Potencia" "Media" 1 []).1
      (by decide) (by decide)
  · exact (C4_amended ⟨[("Error", "Tibio2")], ("Potencia", "Alta"), 1⟩
      [("Error", [("Cero", 1)])] "Error" "Tibio2" "Potencia" "Alta" 1 [("Cero", 1)]).2
      (by decide) (by decide)

/-! ## C6: dispatch on an unrecognized controller -/

/-- C6 fails as stated for the `simulation.py` variant of
`simulate_control`: a controller that is neither PID-typed nor fuzzy-typed
is silently dispatched down the fuzzy branch (`# Asumir controlador
difuso`) and the simulation completes with a result instead of raising. -/
theorem C6_counterexample :
    (simulate_control dispatchSim (.other (fun _ _ => 0)) ⟨20, 30, 5, 1 / 100⟩
        22 0 1 []).isSome = true := by
  have hfuel : ((Int.floor ((0 : ℚ) / 1)).toNat + 1) = 0 + 1 := by norm_num
  unfold simulate_control
  rw [hfuel]
  simp only [simLoop, simStep, dispatchSim, alookup]
  norm_num [simLoop]

/-- C6 amended: the `fuzzy_system.py` variant of `simulate_control` does
raise `ValueError("Tipo de controlador no reconocido")` on a controller
that is neither fuzzy-typed nor PID-typed, before any step of the
simulation completes; the `simulation.py` variant instead duck-types every
non-PID controller as fuzzy. -/
theorem C6_amended (f : ℚ → ℚ → ℚ) (sys : HVACSystem) (setpoint duration dt : ℚ)
    (dist : List (ℚ × ℚ)) (hdur : 0 ≤ duration) :
    simulate_control dispatchFS (.other f) sys setpoint duration dt dist = none := by
  unfold simulate_control
  simp only [simLoop, simStep, dispatchFS, if_pos hdur]

/-- Witness for the amended C6. -/
theorem C6_witness :
    simulate_control dispatchFS (.other (fun _ _ => 0)) ⟨20, 30, 5, 1 / 100⟩
      22 100 (1 / 2) [] = none :=
  C6_amended (fun _ _ => 0) ⟨20, 30, 5, 1 / 100⟩ 22 100 (1 / 2) [] (by norm_num)

/-! ## C7: exact-match disturbances applied before the error is computed -/

/-- C7: in every iteration of either `simulate_control` loop (whose body
is `simStep`), the scheduled disturbance is applied exactly when the
accumulated time is a key of the schedule (exact equality, no tolerance
window), before the error is computed: the recorded temperature is the
pre-iteration plant temperature plus the matched delta (so a matched
`+3.0` produces a discontinuity of exactly `+3.0` at that sample), a
non-matching time leaves the temperature untouched, and the recorded error
is `setpoint - recorded temperature`. -/
theorem C7_disturbance_exact_match
    (dispatch : SimController → ℚ → ℚ → ℚ → Option (ℚ × SimController))
    (ctrl : SimController) (sys : HVACSystem) (setpoint dt : ℚ)
    (dist : List (ℚ × ℚ)) (time : ℚ) (r : SimRec) (ctrl' : SimController)
    (sys' : HVACSystem)
    (h : simStep dispatch ctrl sys setpoint dt dist time = some (r, ctrl', sys')) :
    r.t = time
    ∧ (∀ delta, alookup dist time = some delta → r.temperature = sys.temperature + delta)
    ∧ (alookup dist time = none → r.temperature = sys.temperature)
    ∧ r.error = setpoint - r.temperature
    ∧ (alookup dist time = some 3 → r.temperature = sys.temperature + 3) := by
  cases hd : alookup dist time with
  | none =>
    simp only [simStep, hd] at h
    cases hdisp : dispatch ctrl sys.temperature (setpoint - sys.temperature) dt with
    | none => rw [hdisp] at h; cases h
    | some p =>
      obtain ⟨power, newctrl⟩ := p
      rw [hdisp] at h
      simp only [Option.some.injEq, Prod.mk.injEq] at h
      obtain ⟨hrec, -, -⟩ := h
      subst hrec
      refine ⟨rfl, ?_, fun _ => rfl, rfl, ?_⟩
      · intro delta hdelta
        cases hdelta
      · intro h3
        cases h3
  | some delta =>
    simp only [simStep, hd, HVACSystem.add_disturbance] at h
    cases hdisp : dispatch ctrl (sys.temperature + delta)
        (setpoint - (sys.temperature + delta)) dt with
    | none => rw [hdisp] at h; cases h
    | some p =>
      obtain ⟨power, newctrl⟩ := p
      rw [hdisp] at h
      simp only [Option.some.injEq, Prod.mk.injEq] at h
      obtain ⟨hrec, -, -⟩ := h
      subst hrec
      refine ⟨rfl, ?_, ?_, rfl, ?_⟩
      · intro d hd2
        injection hd2 with hd2
        subst hd2
        rfl
      · intro hnone
        cases hnone
      · intro h3
        injection h3 with h3
        subst h3
        rfl

/-- Witness for C7: a `+3.0` disturbance scheduled at the exactly matching
time `0` shifts the recorded sample by exactly `+3.0`, before the error is
computed. -/
theorem C7_witness :
    (⟨0, 3, 0, -3⟩ : SimRec).t = 0
    ∧ (⟨0, 3, 0, -3⟩ : SimRec).temperature = (⟨0, 0, 1, 0⟩ : HVACSystem).temperature + 3
    ∧ (⟨0, 3, 0, -3⟩ : SimRec).error = 0 - (⟨0, 3, 0, -3⟩ : SimRec).temperature := by
  have hstep : simStep dispatchSim (.other (fun _ _ => 0)) ⟨0, 0, 1, 0⟩ 0 1 [(0, 3)] 0
      = some (⟨0, 3, 0, -3⟩, .other (fun _ _ => 0), ⟨0, 0, 1, 0⟩) := by
    norm_num [simStep, dispatchSim, alookup, HVACSystem.add_disturbance, HVACSystem.update]
  have h := C7_disturbance_exact_match dispatchSim (.other (fun _ _ => 0)) ⟨0, 0, 1, 0⟩ 0 1
    [(0, 3)] 0 ⟨0, 3, 0, -3⟩ (.other (fun _ _ => 0)) ⟨0, 0, 1, 0⟩ hstep
  exact ⟨h.1, h.2.2.2.2 (by norm_num [alookup]), h.2.2.2.1⟩

/-! ## C2: rule order independence of inference -/

/-- Folding two curves into the accumulator by pointwise `max` commutes. -/
theorem zipWith_max_right_comm (acc A B : List ℚ) :
    List.zipWith max (List.zipWith max acc A) B
      = List.zipWith max (List.zipWith max acc B) A := by
  induction acc generalizing A B with
  | nil => simp
  | cons a acc ih =>
    cases A with
    | nil => cases B <;> simp
    | cons x A' =>
      cases B with
      | nil => simp
      | cons y B' =>
        simp only [List.zipWith_cons_cons]
        rw [ih]
        congr 1
        rw [max_assoc, max_comm x y, ← max_assoc]

/-- The aggregation loop is invariant under permuting the activated rules:
pointwise `max` is commutative and associative, and the `KeyError` made by
a missing consequent term fires under a permutation exactly when it fires
in the original order. -/
theorem aggregateFrom_perm (impl : String) (ov : FuzzyVariable) (univ : List ℚ)
    {l₁ l₂ : List (FuzzyRule × ℚ)} (hp : l₁.Perm l₂) :
    ∀ agg, aggregateFrom impl ov univ agg l₁ = aggregateFrom impl ov univ agg l₂ := by
  induction hp with
  | nil => intro agg; rfl
  | cons x l₁l₂ ih =>
    intro agg
    obtain ⟨r, act⟩ := x
    by_cases hpos : act > 0
    · cases hterm : alookup ov.terms r.consequent.2 with
      | none => simp [aggregateFrom, hpos, hterm]
      | some mf => simp [aggregateFrom, hpos, hterm, ih]
    · simp [aggregateFrom, hpos, ih]
  | swap x y l =>
    intro agg
    obtain ⟨rx, ax⟩ := x
    obtain ⟨ry, ay⟩ := y
    by_cases hx : ax > 0 <;> by_cases hy : ay > 0
    · cases hlx : alookup ov.terms rx.consequent.2 with
      | none =>
        cases hly : alookup ov.terms ry.consequent.2 with
        | none => simp [aggregateFrom, hx, hy, hlx, hly]
        | some mfy => simp [aggregateFrom, hx, hy, hlx, hly]
      | some mfx =>
        cases hly : alookup ov.terms ry.consequent.2 with
        | none => simp [aggregateFrom, hx, hy, hlx, hly]
        | some mfy =>
          simp only [aggregateFrom, if_pos hx, if_pos hy, hlx, hly]
          rw [zipWith_max_right_comm]
    · cases hlx : alookup ov.terms rx.consequent.2 with
      | none => simp [aggregateFrom, hx, hy, hlx]
      | some mfx => simp [aggregateFrom, hx, hy, hlx]
    · cases hly : alookup ov.terms ry.consequent.2 with
      | none => simp [aggregateFrom, hx, hy, hly]
      | some mfy => simp [aggregateFrom, hx, hy, hly]
    · simp [aggregateFrom, hx, hy]
  | trans h₁ h₂ ih₁ ih₂ =>
    intro agg
    rw [ih₁, ih₂]

/-- The rule-evaluation loop raises exactly when some rule references an
unknown variable. -/
theorem collect_none_iff (inp : Memberships) (rules : List FuzzyRule) :
    collectRuleActivations inp rules = none ↔ ∃ r ∈ rules, evaluate_rule r inp = none := by
  induction rules with
  | nil => simp [collectRuleActivations]
  | cons r rest ih =>
    cases he : evaluate_rule r inp with
    | none => simp [collectRuleActivations, he]
    | some a =>
      by_cases hpos : a > 0
      · simp [collectRuleActivations, he, hpos, ih]
      · simp [collectRuleActivations, he, hpos, ih]

/-- When no rule raises, the rule-evaluation loop returns exactly the
rules with positive activation, paired with their activations, in rule
order. -/
theorem collect_some_eq (inp : Memberships) (rules : List FuzzyRule)
    (h : ∀ r ∈ rules, evaluate_rule r inp ≠ none) :
    collectRuleActivations inp rules
      = some ((rules.map (fun r => (r, (evaluate_rule r inp).getD 0))).filter
          (fun p => decide (0 < p.2))) := by
  induction rules with
  | nil => rfl
  | cons r rest ih =>
    have hr := h r (by simp)
    obtain ⟨a, ha⟩ := Option.ne_none_iff_exists'.mp hr
    have hrest := ih (fun x hx => h x (by simp [hx]))
    by_cases hpos : a > 0
    · simp [collectRuleActivations, ha, hpos, hrest]
    · simp [collectRuleActivations, ha, hpos, hrest]

/-- C2: permuting the rule list of a `FuzzyInferenceEngine` never changes
the result of `inference` (the aggregated output curve, including the
error outcome) for any fixed input memberships and output variable. -/
theorem C2_rule_order_independence (rules1 rules2 : List FuzzyRule) (impl : String)
    (inp : Memberships) (ov : FuzzyVariable) (hperm : rules1.Perm rules2) :
    FuzzyInferenceEngine.inference ⟨rules1, impl⟩ inp ov
      = FuzzyInferenceEngine.inference ⟨rules2, impl⟩ inp ov := by
  unfold FuzzyInferenceEngine.inference
  by_cases hnone : ∃ r ∈ rules1, evaluate_rule r inp = none
  · have h2 : ∃ r ∈ rules2, evaluate_rule r inp = none := by
      obtain ⟨r, hr, he⟩ := hnone
      exact ⟨r, hperm.subset hr, he⟩
    rw [(collect_none_iff inp rules1).mpr hnone, (collect_none_iff inp rules2).mpr h2]
  · push_neg at hnone
    have h2 : ∀ r ∈ rules2, evaluate_rule r inp ≠ none := fun r hr =>
      hnone r (hperm.symm.subset hr)
    rw [collect_some_eq inp rules1 hnone, collect_some_eq inp rules2 h2]
    simp only [Option.some_bind]
    unfold aggregate_outputs
    exact aggregateFrom_perm impl ov _
      ((hperm.map (fun r => (r, (evaluate_rule r inp).getD 0))).filter
        (fun p => decide (0 < p.2))) _

/-- Two rules of the simplified HVAC rule base, used in the C2 witness. -/
def wRule1 : FuzzyRule := ⟨[("Error", "Cero")], ("Potencia", "Media"), 1⟩

/-- Second rule for the C2 witness. -/
def wRule2 : FuzzyRule := ⟨[("Error", "Positivo")], ("Potencia", "Baja"), 1⟩

/-- Witness for C2: swapping two rules leaves the inference result over
the Potencia variable unchanged. -/
theorem C2_witness :
    FuzzyInferenceEngine.inference ⟨[wRule1, wRule2], "minimum"⟩
        [("Error", [("Cero", 1), ("Positivo", 1 / 2)])] create_power_variable
      = FuzzyInferenceEngine.inference ⟨[wRule2, wRule1], "minimum"⟩
        [("Error", [("Cero", 1), ("Positivo", 1 / 2)])] create_power_variable :=
  C2_rule_order_independence [wRule1, wRule2] [wRule2, wRule1] "minimum"
    [("Error", [("Cero", 1), ("Positivo", 1 / 2)])] create_power_variable
    (List.Perm.swap wRule2 wRule1 [])

/-! ## C9: Scenario B — centroid of a fully fired symmetric triangle -/

/-- A `zipWith` of two maps over the same list fuses to one map. -/
theorem zipWith_map_map (h : ℚ → ℚ → ℚ) (p q : ℚ → ℚ) (l : List ℚ) :
    List.zipWith h (l.map p) (l.map q) = l.map (fun x => h (p x) (q x)) := by
  induction l with
  | nil => rfl
  | cons a t ih => simp [ih]

/-- A `zipWith` of a list with a map over itself fuses to one map. -/
theorem zipWith_self_map (h : ℚ → ℚ → ℚ) (g : ℚ → ℚ) (l : List ℚ) :
    List.zipWith h l (l.map g) = l.map (fun x => h x (g x)) := by
  induction l with
  | nil => rfl
  | cons a t ih => simp [ih]

/-- Sums of maps over `List.range` are `Finset.range` sums. -/
theorem list_sum_map_range (f : ℕ → ℚ) (n : ℕ) :
    ((List.range n).map f).sum = ∑ i in Finset.range n, f i := by
  induction n with
  | zero => rfl
  | succ n ih => rw [Finset.sum_range_succ, List.range_succ]; simp [ih]

/-- The `Media` triangle `Triangular(35, 50, 65)` is symmetric about 50:
reflecting the argument across the universe midpoint leaves the membership
degree unchanged. -/
theorem tri_media_symm (x : ℚ) :
    (MF.triangular 35 50 65).evaluate (100 - x) = (MF.triangular 35 50 65).evaluate x := by
  rcases eq_or_ne x 50 with rfl | hne
  · norm_num
  simp only [MF.evaluate]
  rcases le_or_lt x 35 with h1 | h1
  · rw [if_pos (Or.inl h1), if_pos (Or.inr (by linarith : (100 - x : ℚ) ≥ 65))]
  rcases le_or_lt 65 x with h2 | h2
  · rw [if_pos (Or.inr h2), if_pos (Or.inl (by linarith : (100 - x : ℚ) ≤ 35))]
  rcases le_or_lt x 50 with h3 | h3
  · have h4 : x < 50 := lt_of_le_of_ne h3 hne
    rw [if_neg (show ¬((100 - x : ℚ) ≤ 35 ∨ (100 - x : ℚ) ≥ 65) by
          push_neg; constructor <;> linarith),
      if_neg (show ¬(35 < (100 - x : ℚ) ∧ (100 - x : ℚ) ≤ 50) by rintro ⟨-, hc⟩; linarith),
      if_neg (show ¬((x : ℚ) ≤ 35 ∨ (x : ℚ) ≥ 65) by push_neg; constructor <;> linarith),
      if_pos (show 35 < (x : ℚ) ∧ (x : ℚ) ≤ 50 from ⟨h1, h3⟩)]
    ring
  · rw [if_neg (show ¬((100 - x : ℚ) ≤ 35 ∨ (100 - x : ℚ) ≥ 65) by
          push_neg; constructor <;> linarith),
      if_pos (show 35 < (100 - x : ℚ) ∧ (100 - x : ℚ) ≤ 50 from ⟨by linarith, by linarith⟩),
      if_neg (show ¬((x : ℚ) ≤ 35 ∨ (x : ℚ) ≥ 65) by push_neg; constructor <;> linarith),
      if_neg (show ¬(35 < (x : ℚ) ∧ (x : ℚ) ≤ 50) by rintro ⟨-, hc⟩; linarith)]
    ring

/-- The Scenario-B rule `IF Error == "Cero" THEN Potencia == "Media"`. -/
def c9Rule : FuzzyRule := ⟨[("Error", "Cero")], ("Potencia", "Media"), 1⟩

/-- Scenario-B input memberships: `Cero` fully fired. -/
def c9Input : Memberships := [("Error", [("Cero", 1)])]

/-- The pointwise aggregated-curve value produced by the engine for
Scenario B: the `Media` shape clipped at strength 1 and maxed with the
zero curve. -/
def c9Curve : ℚ → ℚ := fun x => max 0 (min ((MF.triangular 35 50 65).evaluate x) 1)

/-- The aggregated curve is symmetric about the universe midpoint 50. -/
theorem c9Curve_symm (x : ℚ) : c9Curve (100 - x) = c9Curve x := by
  unfold c9Curve
  rw [tri_media_symm]

/-- The Scenario-B inference result: the aggregated curve is exactly the
clipped `Media` shape sampled on the 1000-point Potencia universe. -/
theorem c9_inference_eq :
    FuzzyInferenceEngine.inference ⟨[c9Rule], "minimum"⟩ c9Input create_power_variable
      = some (create_power_variable.get_universe.map c9Curve) := by
  have heval : evaluate_rule c9Rule c9Input = some 1 := by
    simp [evaluate_rule, collectActivations, alookup, c9Rule, c9Input, listMin]
  have hcoll : collectRuleActivations c9Input [c9Rule] = some [(c9Rule, 1)] := by
    simp [collectRuleActivations, heval]
  have hterm : alookup create_power_variable.terms "Media"
      = some (MF.triangular 35 50 65) := by
    simp [create_power_variable, alookup]
  have hact : ((1 : ℚ) > 0) := by norm_num
  rw [FuzzyInferenceEngine.inference]
  rw [hcoll, Option.some_bind]
  rw [aggregate_outputs]
  rw [aggregateFrom, if_pos hact]
  have hc : c9Rule.consequent.2 = "Media" := rfl
  rw [hc, hterm]
  show some (List.zipWith max (create_power_variable.get_universe.map (fun _ => 0))
      (implicationCurve "minimum"
        (create_power_variable.get_universe.map (MF.triangular 35 50 65).evaluate) 1)) = _
  rw [implicationCurve, if_pos rfl]
  rw [List.map_map, zipWith_map_map]
  rfl


/-- The `i`-th grid point of the 1000-point Potencia universe. -/
def c9Grid (i : ℕ) : ℚ := (i : ℚ) * (100 / 999)

set_option maxRecDepth 4000 in
/-- The 1000-point Potencia universe as a map over `List.range`. -/
theorem c9_universe_eq :
    create_power_variable.get_universe = (List.range 1000).map c9Grid := by
  rw [FuzzyVariable.get_universe, linspace]
  have hlo : create_power_variable.lo = 0 := rfl
  have hhi : create_power_variable.hi = 100 := rfl
  rw [hlo, hhi]
  exact congrArg (fun f : ℕ → ℚ => List.map f (List.range 1000))
    (funext fun i => by unfold c9Grid; push_cast; ring)

/-- The grid is symmetric about the universe midpoint 50. -/
theorem c9Grid_reflect (i : ℕ) (hi : i ∈ Finset.range 1000) :
    c9Grid (999 - i) = 100 - c9Grid i := by
  have hi' : i ≤ 999 := by
    have := Finset.mem_range.mp hi; omega
  unfold c9Grid
  rw [Nat.cast_sub hi']
  push_cast
  ring

set_option maxRecDepth 4000 in
/-- C9 (Scenario B): the single rule `IF Error == "Cero" THEN
Potencia == "Media"` fired at full strength 1.0 over the Potencia universe
`[0, 100]` discretized to 1000 points, with `Media = Triangular(35,50,65)`,
gives a centroid defuzzification of exactly 50 (exact rational
arithmetic): the grid and the aggregated curve are both symmetric about
50, so the weighted sum is 50 times the area. -/
theorem C9_centroid_scenario_B :
    (FuzzyInferenceEngine.inference ⟨[c9Rule], "minimum"⟩ c9Input
        create_power_variable).map
      (fun m => Defuzzifier.centroid create_power_variable.get_universe m) = some 50 := by
  rw [c9_inference_eq, Option.map_some']
  refine congrArg some ?_
  have hB : ((create_power_variable.get_universe).map c9Curve).sum
      = ∑ i in Finset.range 1000, c9Curve (c9Grid i) := by
    rw [c9_universe_eq, List.map_map, list_sum_map_range]
    rfl
  have hA : (List.zipWith (· * ·) create_power_variable.get_universe
        ((create_power_variable.get_universe).map c9Curve)).sum
      = ∑ i in Finset.range 1000, c9Grid i * c9Curve (c9Grid i) := by
    rw [zipWith_self_map, c9_universe_eq, List.map_map, list_sum_map_range]
    rfl
  have hAS : (∑ i in Finset.range 1000, c9Grid i * c9Curve (c9Grid i))
      = 100 * (∑ i in Finset.range 1000, c9Curve (c9Grid i))
        - (∑ i in Finset.range 1000, c9Grid i * c9Curve (c9Grid i)) := by
    conv_lhs => rw [← Finset.sum_range_reflect]
    rw [Finset.mul_sum, ← Finset.sum_sub_distrib]
    apply Finset.sum_congr rfl
    intro i hi
    have h9 : 1000 - 1 - i = 999 - i := by omega
    rw [h9, c9Grid_reflect i hi, c9Curve_symm]
    ring
  have hBnn : ∀ i ∈ Finset.range 1000, 0 ≤ c9Curve (c9Grid i) := fun i _ => le_max_left 0 _
  have h500 : 0 < c9Curve (c9Grid 500) := by
    norm_num [c9Curve, c9Grid, MF.evaluate]
  have hBpos : 0 < ∑ i in Finset.range 1000, c9Curve (c9Grid i) :=
    lt_of_lt_of_le h500 (Finset.single_le_sum hBnn (by norm_num))
  show (if (((create_power_variable.get_universe).map c9Curve).sum = 0)
      then ((create_power_variable.get_universe).headD 0
        + (create_power_variable.get_universe).getLastD 0) / 2
      else (List.zipWith (· * ·) create_power_variable.get_universe
          ((create_power_variable.get_universe).map c9Curve)).sum
        / ((create_power_variable.get_universe).map c9Curve).sum) = 50
  rw [if_neg (by rw [hB]; exact ne_of_gt hBpos)]
  rw [hA, hB]
  have h2A : (∑ i in Finset.range 1000, c9Grid i * c9Curve (c9Grid i))
      = 50 * ∑ i in Finset.range 1000, c9Curve (c9Grid i) := by linarith [hAS]
  rw [h2A, mul_div_assoc, div_self (ne_of_gt hBpos), mul_one]

/-! ## C10: all five defuzzifiers stay within the universe range -/

/-- In a `≤`-sorted list, the head bounds every element from below. -/
theorem sorted_head_le (u : List ℚ) (hs : List.Pairwise (· ≤ ·) u) :
    ∀ x ∈ u, u.headD 0 ≤ x := by
  cases u with
  | nil => intro x hx; cases hx
  | cons a t =>
    intro x hx
    rcases List.mem_cons.mp hx with rfl | h
    · exact le_refl _
    · exact (List.pairwise_cons.mp hs).1 x h

/-- The defaulted last element of a non-empty list is a member. -/
theorem getLastD_mem (l : List ℚ) (d : ℚ) (h : l ≠ []) : l.getLastD d ∈ l := by
  cases l with
  | nil => exact absurd rfl h
  | cons a t =>
    rw [List.getLastD_cons]
    exact List.getLastD_mem_cons t a

/-- The defaulted head of a non-empty list is a member. -/
theorem headD_mem (l : List ℚ) (d : ℚ) (h : l ≠ []) : l.headD d ∈ l := by
  cases l with
  | nil => exact absurd rfl h
  | cons a t => exact List.mem_cons_self a t

/-- In a `≤`-sorted list, the last element bounds every element above. -/
theorem sorted_le_getLastD (u : List ℚ) (hs : List.Pairwise (· ≤ ·) u) :
    ∀ x ∈ u, x ≤ u.getLastD 0 := by
  induction u with
  | nil => intro x hx; cases hx
  | cons a t ih =>
    intro x hx
    obtain ⟨hhead, htail⟩ := List.pairwise_cons.mp hs
    cases t with
    | nil =>
      rcases List.mem_cons.mp hx with rfl | h
      · exact le_refl _
      · cases h
    | cons b t2 =>
      have hlast : (a :: b :: t2).getLastD 0 = (b :: t2).getLastD 0 := by
        simp only [List.getLastD_cons]
      rw [hlast]
      rcases List.mem_cons.mp hx with rfl | h
      · exact hhead _ (getLastD_mem (b :: t2) 0 (by simp))
      · exact ih htail x h

/-- Weighted sums against non-negative weights respect elementwise bounds. -/
theorem dot_sum_bounds (lo hi : ℚ) (u m : List ℚ) (hlen : m.length = u.length)
    (hu : ∀ x ∈ u, lo ≤ x ∧ x ≤ hi) (hm : ∀ y ∈ m, 0 ≤ y) :
    lo * m.sum ≤ (List.zipWith (· * ·) u m).sum
    ∧ (List.zipWith (· * ·) u m).sum ≤ hi * m.sum := by
  induction u generalizing m with
  | nil =>
    cases m with
    | nil => simp
    | cons b mt => simp at hlen
  | cons a t ih =>
    cases m with
    | nil => simp at hlen
    | cons b mt =>
      have ihh := ih mt (by simpa using hlen)
        (fun x hx => hu x (List.mem_cons_of_mem a hx))
        (fun y hy => hm y (List.mem_cons_of_mem b hy))
      have ha := hu a (List.mem_cons_self a t)
      have hb := hm b (List.mem_cons_self b mt)
      simp only [List.zipWith_cons_cons, List.sum_cons]
      constructor
      · have h1 : lo * b ≤ a * b := mul_le_mul_of_nonneg_right ha.1 hb
        rw [mul_add]
        exact add_le_add h1 ihh.1
      · have h1 : a * b ≤ hi * b := mul_le_mul_of_nonneg_right ha.2 hb
        rw [mul_add]
        exact add_le_add h1 ihh.2

/-- The bisector scan returns either a universe point or the fallback. -/
theorem bisectorGo_mem_or (half fallb : ℚ) (u m : List ℚ) (cum : ℚ) :
    Defuzzifier.bisectorGo half fallb u m cum ∈ u
    ∨ Defuzzifier.bisectorGo half fallb u m cum = fallb := by
  induction u generalizing m cum with
  | nil => right; rfl
  | cons a t ih =>
    cases m with
    | nil => right; rfl
    | cons b mt =>
      have heq : Defuzzifier.bisectorGo half fallb (a :: t) (b :: mt) cum
          = if cum + b ≥ half then a
            else Defuzzifier.bisectorGo half fallb t mt (cum + b) := by
        rw [Defuzzifier.bisectorGo]
      rw [heq]
      by_cases hc : cum + b ≥ half
      · rw [if_pos hc]
        exact Or.inl (List.mem_cons_self a t)
      · rw [if_neg hc]
        rcases ih mt (cum + b) with h | h
        · exact Or.inl (List.mem_cons_of_mem a h)
        · exact Or.inr h

/-- A left `max`-fold lands on the seed or on a list element. -/
theorem foldl_max_mem (a : ℚ) (t : List ℚ) : t.foldl max a ∈ a :: t := by
  induction t generalizing a with
  | nil => exact List.mem_cons_self a []
  | cons b t ih =>
    simp only [List.foldl_cons]
    rcases List.mem_cons.mp (ih (max a b)) with h2 | h2
    · rw [h2]
      rcases max_choice a b with h3 | h3 <;> rw [h3]
      · exact List.mem_cons_self _ _
      · exact List.mem_cons_of_mem _ (List.mem_cons_self _ _)
    · exact List.mem_cons_of_mem _ (List.mem_cons_of_mem _ h2)

/-- The value of `np.max` on a non-empty array is one of its entries. -/
theorem npMax_mem (m : List ℚ) (hm : m ≠ []) : npMax m ∈ m := by
  cases m with
  | nil => exact absurd rfl hm
  | cons a t => exact foldl_max_mem a t

/-- Every point selected by `np.where(membership == mx)` lies on the
universe grid. -/
theorem maxPoints_subset (u m : List ℚ) (mx : ℚ) :
    ∀ x ∈ Defuzzifier.maxPoints u m mx, x ∈ u := by
  intro x hx
  unfold Defuzzifier.maxPoints at hx
  obtain ⟨p, hp, hpx⟩ := List.mem_filterMap.mp hx
  obtain ⟨p1, p2⟩ := p
  by_cases h : p2 = mx
  · rw [if_pos h] at hpx
    injection hpx with hpx
    exact hpx ▸ (List.of_mem_zip hp).1
  · rw [if_neg h] at hpx
    cases hpx

/-- For same-length arrays, the maximum membership is attained somewhere,
so the selected point set is non-empty. -/
theorem maxPoints_ne_nil (u m : List ℚ) (hlen : m.length = u.length) (hm : m ≠ []) :
    Defuzzifier.maxPoints u m (npMax m) ≠ [] := by
  have hmem : npMax m ∈ m := npMax_mem m hm
  have hsnd : (u.zip m).map Prod.snd = m := List.map_snd_zip u m (le_of_eq hlen)
  have hmem2 : npMax m ∈ (u.zip m).map Prod.snd := by rw [hsnd]; exact hmem
  obtain ⟨p, hp, hps⟩ := List.mem_map.mp hmem2
  intro hnil
  have hin : p.1 ∈ Defuzzifier.maxPoints u m (npMax m) := by
    unfold Defuzzifier.maxPoints
    exact List.mem_filterMap.mpr ⟨p, hp, by rw [if_pos hps]⟩
  rw [hnil] at hin
  cases hin

/-- A list sum against a lower bound on each element. -/
theorem sum_ge_mul_length (lo : ℚ) (l : List ℚ) (h : ∀ x ∈ l, lo ≤ x) :
    lo * (l.length : ℚ) ≤ l.sum := by
  induction l with
  | nil => simp
  | cons a t ih =>
    have ht := ih (fun x hx => h x (List.mem_cons_of_mem a hx))
    have ha := h a (List.mem_cons_self a t)
    simp only [List.sum_cons, List.length_cons]
    push_cast
    nlinarith

/-- A list sum against an upper bound on each element. -/
theorem sum_le_mul_length (hi : ℚ) (l : List ℚ) (h : ∀ x ∈ l, x ≤ hi) :
    l.sum ≤ hi * (l.length : ℚ) := by
  induction l with
  | nil => simp
  | cons a t ih =>
    have ht := ih (fun x hx => h x (List.mem_cons_of_mem a hx))
    have ha := h a (List.mem_cons_self a t)
    simp only [List.sum_cons, List.length_cons]
    push_cast
    nlinarith

/-- The arithmetic mean of a non-empty list stays between elementwise
bounds. -/
theorem mean_bounds (lo hi : ℚ) (l : List ℚ) (hne : l ≠ [])
    (hb : ∀ x ∈ l, lo ≤ x ∧ x ≤ hi) :
    lo ≤ l.sum / (l.length : ℚ) ∧ l.sum / (l.length : ℚ) ≤ hi := by
  have hlpos : (0 : ℚ) < (l.length : ℚ) := by
    cases l with
    | nil => exact absurd rfl hne
    | cons a t =>
      have h1 : (0 : ℚ) ≤ (t.length : ℚ) := by positivity
      simp only [List.length_cons]
      push_cast
      linarith
  constructor
  · rw [le_div_iff₀ hlpos]
    exact sum_ge_mul_length lo l (fun x hx => (hb x hx).1)
  · rw [div_le_iff₀ hlpos]
    exact sum_le_mul_length hi l (fun x hx => (hb x hx).2)

/-- C10: for every non-empty ascending universe and same-length
non-negative membership array, each of the five defuzzification methods
returns a value inside `[universe[0], universe[-1]]`. -/
theorem C10_defuzz_in_range (u m : List ℚ) (hne : u ≠ [])
    (hsort : List.Pairwise (· ≤ ·) u) (hlen : m.length = u.length)
    (hnn : ∀ x ∈ m, 0 ≤ x) :
    (u.headD 0 ≤ Defuzzifier.centroid u m
      ∧ Defuzzifier.centroid u m ≤ u.getLastD 0)
    ∧ (u.headD 0 ≤ Defuzzifier.bisector u m
      ∧ Defuzzifier.bisector u m ≤ u.getLastD 0)
    ∧ (u.headD 0 ≤ Defuzzifier.mean_of_maximum u m
      ∧ Defuzzifier.mean_of_maximum u m ≤ u.getLastD 0)
    ∧ (u.headD 0 ≤ Defuzzifier.smallest_of_maximum u m
      ∧ Defuzzifier.smallest_of_maximum u m ≤ u.getLastD 0)
    ∧ (u.headD 0 ≤ Defuzzifier.largest_of_maximum u m
      ∧ Defuzzifier.largest_of_maximum u m ≤ u.getLastD 0) := by
  have hu : ∀ x ∈ u, u.headD 0 ≤ x ∧ x ≤ u.getLastD 0 := fun x hx =>
    ⟨sorted_head_le u hsort x hx, sorted_le_getLastD u hsort x hx⟩
  have hlohi : u.headD 0 ≤ u.getLastD 0 := (hu _ (headD_mem u 0 hne)).2
  have hmid : u.headD 0 ≤ (u.headD 0 + u.getLastD 0) / 2
      ∧ (u.headD 0 + u.getLastD 0) / 2 ≤ u.getLastD 0 := ⟨by linarith, by linarith⟩
  have hm_ne : m ≠ [] := by
    intro h0
    rw [h0] at hlen
    cases u with
    | nil => exact hne rfl
    | cons a t => simp at hlen
  have hcen : Defuzzifier.centroid u m
      = if m.sum = 0 then (u.headD 0 + u.getLastD 0) / 2
        else (List.zipWith (· * ·) u m).sum / m.sum := rfl
  have hbis : Defuzzifier.bisector u m
      = if m.sum = 0 then (u.headD 0 + u.getLastD 0) / 2
        else Defuzzifier.bisectorGo (m.sum / 2) (u.getLastD 0) u m 0 := rfl
  have hmom : Defuzzifier.mean_of_maximum u m
      = if npMax m = 0 then (u.headD 0 + u.getLastD 0) / 2
        else (Defuzzifier.maxPoints u m (npMax m)).sum
          / ((Defuzzifier.maxPoints u m (npMax m)).length : ℚ) := rfl
  have hsom : Defuzzifier.smallest_of_maximum u m
      = if npMax m = 0 then u.headD 0
        else (Defuzzifier.maxPoints u m (npMax m)).headD 0 := rfl
  have hlom : Defuzzifier.largest_of_maximum u m
      = if npMax m = 0 then u.getLastD 0
        else (Defuzzifier.maxPoints u m (npMax m)).getLastD 0 := rfl
  have hpts_ne := maxPoints_ne_nil u m hlen hm_ne
  have hpts_sub := maxPoints_subset u m (npMax m)
  refine ⟨?_, ?_, ?_, ?_, ?_⟩
  · rw [hcen]
    by_cases hz : m.sum = 0
    · rw [if_pos hz]; exact hmid
    · rw [if_neg hz]
      have hpos : 0 < m.sum := lt_of_le_of_ne (List.sum_nonneg hnn) (Ne.symm hz)
      have hd := dot_sum_bounds (u.headD 0) (u.getLastD 0) u m hlen hu hnn
      exact ⟨(le_div_iff₀ hpos).mpr hd.1, (div_le_iff₀ hpos).mpr hd.2⟩
  · rw [hbis]
    by_cases hz : m.sum = 0
    · rw [if_pos hz]; exact hmid
    · rw [if_neg hz]
      rcases bisectorGo_mem_or (m.sum / 2) (u.getLastD 0) u m 0 with h | h
      · exact hu _ h
      · rw [h]; exact ⟨hlohi, le_refl _⟩
  · rw [hmom]
    by_cases hz : npMax m = 0
    · rw [if_pos hz]; exact hmid
    · rw [if_neg hz]
      exact mean_bounds _ _ _ hpts_ne (fun x hx => hu x (hpts_sub x hx))
  · rw [hsom]
    by_cases hz : npMax m = 0
    · rw [if_pos hz]; exact ⟨le_refl _, hlohi⟩
    · rw [if_neg hz]
      exact hu _ (hpts_sub _ (headD_mem _ 0 hpts_ne))
  · rw [hlom]
    by_cases hz : npMax m = 0
    · rw [if_pos hz]; exact ⟨hlohi, le_refl _⟩
    · rw [if_neg hz]
      exact hu _ (hpts_sub _ (getLastD_mem _ 0 hpts_ne))

/-- Witness for C10 on `u = [0, 1, 2]`, `m = [0, 1, 0]`. -/
theorem C10_witness :
    (([0, 1, 2] : List ℚ).headD 0 ≤ Defuzzifier.centroid [0, 1, 2] [0, 1, 0]
      ∧ Defuzzifier.centroid [0, 1, 2] [0, 1, 0] ≤ ([0, 1, 2] : List ℚ).getLastD 0)
    ∧ (([0, 1, 2] : List ℚ).headD 0 ≤ Defuzzifier.bisector [0, 1, 2] [0, 1, 0]
      ∧ Defuzzifier.bisector [0, 1, 2] [0, 1, 0] ≤ ([0, 1, 2] : List ℚ).getLastD 0)
    ∧ (([0, 1, 2] : List ℚ).headD 0 ≤ Defuzzifier.mean_of_maximum [0, 1, 2] [0, 1, 0]
      ∧ Defuzzifier.mean_of_maximum [0, 1, 2] [0, 1, 0] ≤ ([0, 1, 2] : List ℚ).getLastD 0)
    ∧ (([0, 1, 2] : List ℚ).headD 0 ≤ Defuzzifier.smallest_of_maximum [0, 1, 2] [0, 1, 0]
      ∧ Defuzzifier.smallest_of_maximum [0, 1, 2] [0, 1, 0] ≤ ([0, 1, 2] : List ℚ).getLastD 0)
    ∧ (([0, 1, 2] : List ℚ).headD 0 ≤ Defuzzifier.largest_of_maximum [0, 1, 2] [0, 1, 0]
      ∧ Defuzzifier.largest_of_maximum [0, 1, 2] [0, 1, 0] ≤ ([0, 1, 2] : List ℚ).getLastD 0) :=
  C10_defuzz_in_range [0, 1, 2] [0, 1, 0] (by decide) (by decide) (by decide) (by decide)
